import Mathlib

/-!
Shallow embedding of the WATTx FCMP FFI library
(`src/privacy/fcmp/rust/src/lib.rs`) and verification of its specification.

Modelling conventions:
* A byte is a `Nat` (valid bytes are `< 256`); byte buffers are `List Nat`.
* A C pointer argument that may be null is an `Option` value (`none` = null);
  an output pointer is modelled by a `Bool` flag saying whether it is null,
  and the bytes written through it are returned as `Option (List Nat)`
  (`none` = nothing written).
* The process-wide `GLOBAL_PARAMS` singleton is modelled by an explicit
  `Bool` state (`true` = initialized) threaded through the functions.
* The external crates (`blake2`, `curve25519-dalek`, `rand_core`) are not
  part of this repository; the embedding is parameterized over their
  observable behaviour: a hash function `blake : List Nat → List Nat`
  (Blake2b512: 64-byte digests), abstract point decompression /
  compression / cofactor multiplication, and the entropy bytes drawn by
  `OsRng` (an `Option (List Nat)` input, `none` = entropy failure).
* A Rust `panic!` (the `unwrap()` in `fcmp_pedersen_commit`) is modelled
  by an `Option` result, `none` meaning the call panics.
-/

namespace Fcmp

/-! ## Error codes (`lib.rs` lines 22-39) -/

def FCMP_SUCCESS : Int := 0
def FCMP_ERROR_INVALID_PARAM : Int := -1
def FCMP_ERROR_PROOF_GENERATION : Int := -2
def FCMP_ERROR_PROOF_VERIFICATION : Int := -3
def FCMP_ERROR_MEMORY : Int := -4
def FCMP_ERROR_INVALID_POINT : Int := -5
def FCMP_ERROR_INVALID_SCALAR : Int := -6
def FCMP_ERROR_NOT_INITIALIZED : Int := -7
def FCMP_ERROR_INTERNAL : Int := -99

/-! ## Sizes (`lib.rs` lines 45-52) -/

def SCALAR_SIZE : Nat := 32
def POINT_SIZE : Nat := 32
def OUTPUT_TUPLE_SIZE : Nat := POINT_SIZE * 3

/-- A buffer is a valid byte buffer when every entry is an actual byte. -/
def bytesValid (l : List Nat) : Prop := ∀ b ∈ l, b < 256

instance (l : List Nat) : Decidable (bytesValid l) := by
  unfold bytesValid; infer_instance

/-- Little-endian value of a byte buffer (how a 32-byte scalar is read as
an integer). -/
def leVal : List Nat → Nat
  | [] => 0
  | b :: bs => b + 256 * leVal bs

/-! ## Lifecycle (`fcmp_init` / `fcmp_cleanup` / `fcmp_is_initialized`,
`lib.rs` lines 110-154).  The state is `GLOBAL_PARAMS.is_some()`. -/

/-- `fcmp_init`: if already initialized, return `FCMP_SUCCESS` leaving the
state alone; otherwise install the params box and return `FCMP_SUCCESS`.
Result: (new state, return code). -/
def fcmp_init (st : Bool) : Bool × Int :=
  if st then (st, FCMP_SUCCESS)
  else (true, FCMP_SUCCESS)

/-- `fcmp_cleanup`: sets `GLOBAL_PARAMS` to `None` unconditionally. -/
def fcmp_cleanup (_st : Bool) : Bool :=
  false

/-- `fcmp_is_initialized`: 1 if the singleton is present, 0 otherwise. -/
def fcmp_is_initialized (st : Bool) : Int :=
  if st then 1 else 0

/-! ## Scalar operations (`lib.rs` lines 160-250) -/

/-- The final `result[31] &= 0x7f` step shared by the scalar producers. -/
def clampTop (l : List Nat) : List Nat :=
  l.set 31 (l.getD 31 0 &&& 0x7f)

/-- `fcmp_scalar_random`: entropy is the byte string `OsRng.try_fill_bytes`
would produce (`none` = entropy failure).  Returns (code, bytes written). -/
def fcmp_scalar_random (entropy : Option (List Nat)) (out_null : Bool) :
    Int × Option (List Nat) :=
  if out_null then (FCMP_ERROR_INVALID_PARAM, none)
  else
    match entropy with
    | none => (FCMP_ERROR_INTERNAL, none)
    | some e => (FCMP_SUCCESS, some (clampTop e))

/-- The byte-wise add-with-carry loop of `fcmp_scalar_add`:
`sum = a[i] + b[i] + carry; result[i] = sum as u8; carry = sum >> 8`. -/
def addBytesCarry : List Nat → List Nat → Nat → List Nat
  | a :: as_, b :: bs, carry =>
      let sum := a + b + carry
      sum % 256 :: addBytesCarry as_ bs (sum / 256)
  | _, _, _ => []

/-- `fcmp_scalar_add`: null checks, byte-wise add with carry over the 32
bytes, then `result[31] &= 0x7f`. -/
def fcmp_scalar_add (out_null : Bool) (a b : Option (List Nat)) :
    Int × Option (List Nat) :=
  if out_null ∨ a = none ∨ b = none then (FCMP_ERROR_INVALID_PARAM, none)
  else
    match a, b with
    | some ab, some bb =>
        (FCMP_SUCCESS, some (clampTop (addBytesCarry ab bb 0)))
    | _, _ => (FCMP_ERROR_INVALID_PARAM, none)

/-- `fcmp_scalar_mul`: the source's placeholder XORs the two inputs byte
by byte (`result[i] = a_bytes[i] ^ b_bytes[i]`) and clears the top bit. -/
def fcmp_scalar_mul (out_null : Bool) (a b : Option (List Nat)) :
    Int × Option (List Nat) :=
  if out_null ∨ a = none ∨ b = none then (FCMP_ERROR_INVALID_PARAM, none)
  else
    match a, b with
    | some ab, some bb =>
        (FCMP_SUCCESS, some (clampTop (List.zipWith (· ^^^ ·) ab bb)))
    | _, _ => (FCMP_ERROR_INVALID_PARAM, none)

/-! ## Hashes (`lib.rs` lines 396-482), parameterized over Blake2b512. -/

/-- `fcmp_hash_to_scalar`: Blake2b512 of the input, first 32 bytes,
top bit of byte 31 cleared. -/
def fcmp_hash_to_scalar (blake : List Nat → List Nat)
    (out_null : Bool) (data : Option (List Nat)) (data_len : Nat) :
    Int × Option (List Nat) :=
  if out_null ∨ (data = none ∧ 0 < data_len) then
    (FCMP_ERROR_INVALID_PARAM, none)
  else
    let input := if 0 < data_len then data.getD [] else []
    (FCMP_SUCCESS, some (clampTop ((blake input).take SCALAR_SIZE)))

/-- The domain tag `b"WATTx_hash_to_point_v1"` as bytes. -/
def hashToPointTag : List Nat :=
  "WATTx_hash_to_point_v1".toList.map Char.toNat

/-- The compressed candidate for attempt `i` of `fcmp_hash_to_point`:
Blake2b512 of (seed hash ++ the single byte `i`), first 32 bytes. -/
def h2pCandidate (blake : List Nat → List Nat) (hash : List Nat)
    (i : Nat) : List Nat :=
  (blake (hash ++ [i])).take POINT_SIZE

/-- The rejection-sampling loop `for i in 0..=255u8`: try attempts
`i, i+1, ...` while `fuel` lasts, returning the first candidate that
decompresses together with its attempt index. -/
def h2pLoop {Point : Type} (blake : List Nat → List Nat)
    (decompress : List Nat → Option Point) (hash : List Nat) :
    Nat → Nat → Option (Nat × Point)
  | 0, _ => none
  | fuel + 1, i =>
      match decompress (h2pCandidate blake hash i) with
      | some p => some (i, p)
      | none => h2pLoop blake decompress hash fuel (i + 1)

/-- `fcmp_hash_to_point`: hash the domain tag and input once to a seed,
then rejection-sample up to 256 candidates; the first that decompresses
is multiplied by the cofactor, compressed and written out; if none
decompresses the call fails with `FCMP_ERROR_INTERNAL`. -/
def fcmp_hash_to_point {Point : Type} (blake : List Nat → List Nat)
    (decompress : List Nat → Option Point)
    (mulByCofactor : Point → Point) (compress : Point → List Nat)
    (out_null : Bool) (data : Option (List Nat)) (data_len : Nat) :
    Int × Option (List Nat) :=
  if out_null ∨ (data = none ∧ 0 < data_len) then
    (FCMP_ERROR_INVALID_PARAM, none)
  else
    let input := if 0 < data_len then data.getD [] else []
    let hash := blake (hashToPointTag ++ input)
    match h2pLoop blake decompress hash 256 0 with
    | some (_, p) => (FCMP_SUCCESS, some (compress (mulByCofactor p)))
    | none => (FCMP_ERROR_INTERNAL, none)

/-- `fcmp_point_is_valid`: 1 iff the 32 bytes decompress (0 for null). -/
def fcmp_point_is_valid {Point : Type}
    (decompress : List Nat → Option Point)
    (point : Option (List Nat)) : Int :=
  match point with
  | none => 0
  | some pb => if (decompress pb).isSome then 1 else 0

/-! ## Pedersen commitment (`lib.rs` lines 488-537) -/

/-- The domain string `b"WATTx_Pedersen_H_v1"` as bytes. -/
def pedersenHTag : List Nat :=
  "WATTx_Pedersen_H_v1".toList.map Char.toNat

/-- `fcmp_pedersen_commit`, parameterized over the curve model: the
abstract `Point` and `Scalar` types of curve25519-dalek together with
`Scalar::from_bytes_mod_order`, scalar-point multiplication, point
addition and the fixed basepoint `G`.  Derives `H` by calling
`fcmp_hash_to_point` on the fixed domain string, decompresses it with
`.unwrap()` (a panic, modelled by the outer `Option`, when the bytes do
not decompress), and writes `compress (v*G + b*H)`. -/
def fcmp_pedersen_commit {Point Scalar : Type}
    (blake : List Nat → List Nat)
    (decompress : List Nat → Option Point)
    (mulByCofactor : Point → Point) (compress : Point → List Nat)
    (fromBytesModOrder : List Nat → Scalar)
    (smul : Scalar → Point → Point) (padd : Point → Point → Point)
    (G : Point)
    (out_null : Bool) (value blinding : Option (List Nat)) :
    Option (Int × Option (List Nat)) :=
  if out_null ∨ value = none ∨ blinding = none then
    some (FCMP_ERROR_INVALID_PARAM, none)
  else
    match value, blinding with
    | some vb, some bb =>
        let v := fromBytesModOrder vb
        let b := fromBytesModOrder bb
        let hres := fcmp_hash_to_point blake decompress mulByCofactor
          compress false (some pedersenHTag) pedersenHTag.length
        if hres.1 ≠ FCMP_SUCCESS then some (FCMP_ERROR_INTERNAL, none)
        else
          match decompress (hres.2.getD []) with
          | none => none
          | some h =>
              some (FCMP_SUCCESS,
                some (compress (padd (smul v G) (smul b h))))
    | _, _ => some (FCMP_ERROR_INVALID_PARAM, none)

/-! ## Proof size (`fcmp_proof_size`, `lib.rs` lines 551-568) -/

/-- Rust `u32::leading_zeros`: 32 minus the bit length, on values
below `2 ^ 32`. -/
def u32_leading_zeros (n : Nat) : Nat :=
  32 - Nat.size n

/-- Release-mode Rust `usize` multiplication on a 64-bit target: the
product wraps modulo `2 ^ 64`. -/
def usize_mul (a b : Nat) : Nat :=
  a * b % 2 ^ 64

/-- Release-mode Rust `usize` addition on a 64-bit target: the sum
wraps modulo `2 ^ 64`. -/
def usize_add (a b : Nat) : Nat :=
  (a + b) % 2 ^ 64

/-- `fcmp_proof_size`: 0 when either argument is 0, otherwise
`32*16 + 32*2*(32 - leading_zeros(num_layers)) + 32*num_inputs*num_layers
+ 64`, every multiplication and addition performed in `usize` (wrapping
modulo `2 ^ 64` on a 64-bit target, matching release-mode Rust; the
commitment term can wrap for large valid `u32` arguments). -/
def fcmp_proof_size (num_inputs num_layers : Nat) : Nat :=
  if num_inputs = 0 ∨ num_layers = 0 then 0
  else
    let base := usize_mul 32 16
    let ipa := usize_mul (usize_mul 32 2) (32 - u32_leading_zeros num_layers)
    let commits := usize_mul (usize_mul 32 num_inputs) num_layers
    usize_add (usize_add (usize_add base ipa) commits) 64

/-! ## Branch / input data model (`lib.rs` lines 73-104) -/

/-- `FcmpBranchLayer`: element count and a (possibly null) pointer to
`num_elements * 32` bytes. -/
structure FcmpBranchLayer where
  num_elements : Nat
  elements : Option (List Nat)
deriving DecidableEq

/-- `FcmpBranch`: leaf index, layer count and a (possibly null) pointer
to the layer array. -/
structure FcmpBranch where
  leaf_index : Nat
  num_layers : Nat
  layers : Option (List FcmpBranchLayer)
deriving DecidableEq

/-- `FcmpInput`: four 64-byte values. -/
structure FcmpInput where
  o_tilde : List Nat
  i_tilde : List Nat
  r : List Nat
  c_tilde : List Nat
deriving DecidableEq

/-! ## Proof generation / verification (`lib.rs` lines 580-680) -/

/-- The bytes hashed for the placeholder proof: the branch layers with a
non-null element pointer and a positive element count contribute their
`num_elements * 32` bytes, in order. -/
def branchBytes (layers : List FcmpBranchLayer) : List Nat :=
  layers.foldl (fun acc layer =>
    match layer.elements with
    | none => acc
    | some els => if 0 < layer.num_elements then acc ++ els else acc) []

/-- The proof-domain tag `b"WATTx_FCMP_Proof_v1"` as bytes. -/
def proofTag : List Nat :=
  "WATTx_FCMP_Proof_v1".toList.map Char.toNat

/-- `fcmp_prove`: null checks, initialization check, branch shape check,
then the placeholder Blake2b512 hash of tag ++ root ++ output ++ branch
bytes; the proof is the first 64 digest bytes.  Result: (return code,
bytes written to `proof_out`, value written to `proof_len_out`). -/
def fcmp_prove (blake : List Nat → List Nat) (initialized : Bool)
    (proof_out_null proof_len_out_null : Bool) (proof_max_len : Nat)
    (tree_root output : Option (List Nat))
    (branch : Option FcmpBranch) :
    Int × Option (List Nat) × Option Nat :=
  if proof_out_null ∨ proof_len_out_null ∨ tree_root = none ∨
      output = none ∨ branch = none then
    (FCMP_ERROR_INVALID_PARAM, none, none)
  else if ¬ initialized then
    (FCMP_ERROR_NOT_INITIALIZED, none, none)
  else
    let br := branch.getD ⟨0, 0, none⟩
    if br.layers = none ∨ br.num_layers = 0 then
      (FCMP_ERROR_INVALID_PARAM, none, none)
    else
      let hash := blake (proofTag ++
        (tree_root.getD []).take POINT_SIZE ++
        (output.getD []).take OUTPUT_TUPLE_SIZE ++
        branchBytes ((br.layers.getD []).take br.num_layers))
      if proof_max_len < 64 then
        (FCMP_ERROR_MEMORY, none, none)
      else
        (FCMP_SUCCESS, some (hash.take 64), some 64)

/-- `fcmp_verify`: null checks, initialization check, minimum-length
check (`proof_len < 64` is `FCMP_ERROR_INVALID_PARAM`), all-zero check
(`FCMP_ERROR_PROOF_VERIFICATION`), otherwise success.  `proof` carries
the `proof_len` readable bytes of the proof buffer. -/
def fcmp_verify (initialized : Bool) (tree_root : Option (List Nat))
    (input : Option FcmpInput) (proof : Option (List Nat))
    (proof_len : Nat) : Int :=
  if tree_root = none ∨ input = none ∨ proof = none then
    FCMP_ERROR_INVALID_PARAM
  else if ¬ initialized then
    FCMP_ERROR_NOT_INITIALIZED
  else if proof_len < 64 then
    FCMP_ERROR_INVALID_PARAM
  else if ((proof.getD []).take proof_len).all (· = 0) then
    FCMP_ERROR_PROOF_VERIFICATION
  else
    FCMP_SUCCESS

/-! ## Reference constants for the claims -/

/-- The order of the prime-order subgroup of Ed25519 (the curve used by
the library through curve25519-dalek), `2^252 + 27742317...493`. -/
def ED25519_GROUP_ORDER : Nat :=
  2 ^ 252 + 27742317777372353535851937790883648493

/-- The 32-byte little-endian scalar with value 2. -/
def twoScalar : List Nat := 2 :: List.replicate 31 0

/-- The 32-byte little-endian scalar with value 3. -/
def threeScalar : List Nat := 3 :: List.replicate 31 0

/-- The 32-byte little-endian scalar with value 1. -/
def oneScalar : List Nat := 1 :: List.replicate 31 0

/-! ## Byte-buffer lemmas -/

theorem leVal_lt_of_top (n : Nat) : ∀ l : List Nat, bytesValid l →
    l.length = n + 1 → l.getD n 0 < 128 → leVal l < 128 * 256 ^ n := by
  induction n with
  | zero =>
    intro l hv hl ht
    match l, hl with
    | [b], _ =>
      simp only [leVal, List.getD_cons_zero] at *
      omega
  | succ n ih =>
    intro l hv hl ht
    match l with
    | b :: bs =>
      have hb : b < 256 := hv b (List.mem_cons_self _ _)
      have hvbs : bytesValid bs := fun x hx => hv x (List.mem_cons_of_mem _ hx)
      have hlbs : bs.length = n + 1 := by
        simpa using hl
      have htbs : bs.getD n 0 < 128 := by
        simpa using ht
      have hrec := ih bs hvbs hlbs htbs
      have hpow : 128 * 256 ^ (n + 1) = 256 * (128 * 256 ^ n) := by ring
      have h2 : 256 * (leVal bs + 1) ≤ 256 * (128 * 256 ^ n) :=
        Nat.mul_le_mul_left _ hrec
      simp only [leVal]
      omega

theorem scalar32_lt_2_255 (l : List Nat) (hv : bytesValid l)
    (hl : l.length = 32) (ht : l.getD 31 0 < 128) : leVal l < 2 ^ 255 := by
  have h := leVal_lt_of_top 31 l hv hl ht
  have he : (128 : Nat) * 256 ^ 31 = 2 ^ 255 := by norm_num
  omega

theorem clampTop_spec (l : List Nat) (hl : l.length = 32)
    (hv : bytesValid l) :
    (clampTop l).length = 32 ∧ bytesValid (clampTop l) ∧
      (clampTop l).getD 31 0 < 128 := by
  refine ⟨by simp [clampTop, hl], ?_, ?_⟩
  · intro b hb
    rcases List.mem_or_eq_of_mem_set hb with h | h
    · exact hv b h
    · have : l.getD 31 0 &&& 0x7f ≤ 0x7f := Nat.and_le_right
      omega
  · have h31 : 31 < l.length := by omega
    have heq : (clampTop l).getD 31 0 = l.getD 31 0 &&& 0x7f := by
      simp [clampTop, List.getD_eq_getElem?_getD, List.getElem?_set_self h31]
    rw [heq]
    have h2 : l.getD 31 0 &&& 0x7f ≤ 0x7f := Nat.and_le_right
    omega

theorem addBytesCarry_length : ∀ (a b : List Nat) (c : Nat),
    (addBytesCarry a b c).length = min a.length b.length := by
  intro a
  induction a with
  | nil => intro b c; cases b <;> simp [addBytesCarry]
  | cons x xs ih =>
    intro b c
    cases b with
    | nil => simp [addBytesCarry]
    | cons y ys =>
      simp only [addBytesCarry, List.length_cons, ih]
      omega

theorem addBytesCarry_valid : ∀ (a b : List Nat) (c : Nat),
    bytesValid (addBytesCarry a b c) := by
  intro a
  induction a with
  | nil => intro b c z hz; cases b <;> simp [addBytesCarry] at hz
  | cons x xs ih =>
    intro b c z hz
    cases b with
    | nil => simp [addBytesCarry] at hz
    | cons y ys =>
      simp only [addBytesCarry, List.mem_cons] at hz
      rcases hz with h | h
      · subst h; exact Nat.mod_lt _ (by norm_num)
      · exact ih ys _ z h

theorem addBytesCarry_comm : ∀ (a b : List Nat) (c : Nat),
    addBytesCarry a b c = addBytesCarry b a c := by
  intro a
  induction a with
  | nil => intro b c; cases b <;> rfl
  | cons x xs ih =>
    intro b c
    cases b with
    | nil => rfl
    | cons y ys =>
      simp only [addBytesCarry, Nat.add_comm x y]
      rw [ih]

theorem zipWith_xor_valid : ∀ (a b : List Nat), bytesValid a →
    bytesValid b → bytesValid (List.zipWith (· ^^^ ·) a b) := by
  intro a
  induction a with
  | nil => intro b _ _ z hz; simp at hz
  | cons x xs ih =>
    intro b hva hvb z hz
    cases b with
    | nil => simp at hz
    | cons y ys =>
      simp only [List.zipWith_cons_cons, List.mem_cons] at hz
      rcases hz with h | h
      · subst h
        have hx : x < 2 ^ 8 := hva x (List.mem_cons_self _ _)
        have hy : y < 2 ^ 8 := hvb y (List.mem_cons_self _ _)
        exact Nat.xor_lt_two_pow hx hy
      · exact ih ys (fun u hu => hva u (List.mem_cons_of_mem _ hu))
          (fun u hu => hvb u (List.mem_cons_of_mem _ hu)) z h

/-! ## Claims C5-C8 -/

/-- When the `usize` arithmetic does not wrap, `fcmp_proof_size` equals
the unbounded formula `512 + 64*(32 - clz(l)) + 32*i*l + 64`. -/
theorem fcmp_proof_size_eq_of_lt (i l : Nat) (hi : 0 < i) (hl : 0 < l)
    (hb : 32 * i * l + 2624 < 2 ^ 64) :
    fcmp_proof_size i l =
      512 + 64 * (32 - u32_leading_zeros l) + 32 * i * l + 64 := by
  have ht : 32 - u32_leading_zeros l ≤ 32 := by
    unfold u32_leading_zeros
    omega
  have hil : 32 * i ≤ 32 * i * l := Nat.le_mul_of_pos_right _ hl
  simp only [fcmp_proof_size, usize_mul, usize_add]
  rw [if_neg (by omega)]
  rw [Nat.mod_eq_of_lt (by norm_num : (32 : Nat) * 16 < 2 ^ 64)]
  rw [Nat.mod_eq_of_lt (by norm_num : (32 : Nat) * 2 < 2 ^ 64)]
  rw [Nat.mod_eq_of_lt
    (show 32 * 2 * (32 - u32_leading_zeros l) < 2 ^ 64 by omega)]
  rw [Nat.mod_eq_of_lt (show 32 * i < 2 ^ 64 by omega)]
  rw [Nat.mod_eq_of_lt (show 32 * i * l < 2 ^ 64 by omega)]
  rw [Nat.mod_eq_of_lt
    (show 32 * 16 + 32 * 2 * (32 - u32_leading_zeros l) < 2 ^ 64 by
      omega)]
  rw [Nat.mod_eq_of_lt
    (show 32 * 16 + 32 * 2 * (32 - u32_leading_zeros l) + 32 * i * l <
        2 ^ 64 by omega)]
  rw [Nat.mod_eq_of_lt
    (show 32 * 16 + 32 * 2 * (32 - u32_leading_zeros l) + 32 * i * l +
        64 < 2 ^ 64 by omega)]

/-- C5 counterexample: at the valid `u32` arguments
`num_inputs = 2^31`, `num_layers` stepping from `2^31 - 1` to `2^31`,
the commitment term wraps in `usize` and the proof size drops from
`2^64 - 2^36 + 2560` to `2624`, so monotonicity in `num_layers` fails
for positive arguments. -/
theorem c5_counterexample :
    0 < (2 ^ 31 : Nat) ∧ 0 < (2 ^ 31 - 1 : Nat) ∧
    (2 ^ 31 - 1 : Nat) ≤ 2 ^ 31 ∧
    fcmp_proof_size (2 ^ 31) (2 ^ 31) <
      fcmp_proof_size (2 ^ 31) (2 ^ 31 - 1) := by
  refine ⟨by norm_num, by norm_num, by norm_num, ?_⟩
  have hs1 : Nat.size (2147483647 : Nat) = 31 := by
    have h1 : Nat.size (2147483647 : Nat) ≤ 31 :=
      Nat.size_le.2 (by norm_num)
    have h2 : 30 < Nat.size (2147483647 : Nat) :=
      Nat.lt_size.2 (by norm_num)
    omega
  have hs2 : Nat.size (2147483648 : Nat) = 32 := by
    have h1 : Nat.size (2147483648 : Nat) ≤ 32 :=
      Nat.size_le.2 (by norm_num)
    have h2 : 31 < Nat.size (2147483648 : Nat) :=
      Nat.lt_size.2 (by norm_num)
    omega
  have e1 : fcmp_proof_size 2147483648 2147483647 =
      18446744004990077440 := by
    have step : fcmp_proof_size 2147483648 2147483647 =
        usize_add (usize_add (usize_add (usize_mul 32 16)
          (usize_mul (usize_mul 32 2)
            (32 - u32_leading_zeros 2147483647)))
          (usize_mul (usize_mul 32 2147483648) 2147483647)) 64 := by
      rw [fcmp_proof_size, if_neg (by norm_num)]
    rw [step, u32_leading_zeros, hs1]
    simp only [usize_mul, usize_add]
    norm_num
  have e2 : fcmp_proof_size 2147483648 2147483648 = 2624 := by
    have step : fcmp_proof_size 2147483648 2147483648 =
        usize_add (usize_add (usize_add (usize_mul 32 16)
          (usize_mul (usize_mul 32 2)
            (32 - u32_leading_zeros 2147483648)))
          (usize_mul (usize_mul 32 2147483648) 2147483648)) 64 := by
      rw [fcmp_proof_size, if_neg (by norm_num)]
    rw [step, u32_leading_zeros, hs2]
    simp only [usize_mul, usize_add]
    norm_num
  have hp1 : (2 ^ 31 : Nat) = 2147483648 := by norm_num
  have hp2 : (2 ^ 31 - 1 : Nat) = 2147483647 := by norm_num
  rw [hp2, hp1, e1, e2]
  norm_num

/-- C5 (amended): `fcmp_proof_size 0 n = 0` and `fcmp_proof_size n 0 = 0`
for every `n`, and for positive arguments `fcmp_proof_size` is
monotonically non-decreasing in `num_inputs` and in `num_layers` as
long as the `usize` commitment term does not wrap
(`32 * num_inputs * num_layers + 2624 < 2^64` at the larger argument
pair).  It is a plain function of its two arguments, matching the
side-effect-free Rust function. -/
theorem c5_proof_size_zero_and_monotone :
    (∀ n, fcmp_proof_size 0 n = 0) ∧
    (∀ n, fcmp_proof_size n 0 = 0) ∧
    (∀ i i' l, 0 < i → i ≤ i' → 0 < l →
      32 * i' * l + 2624 < 2 ^ 64 →
      fcmp_proof_size i l ≤ fcmp_proof_size i' l) ∧
    (∀ i l l', 0 < i → 0 < l → l ≤ l' →
      32 * i * l' + 2624 < 2 ^ 64 →
      fcmp_proof_size i l ≤ fcmp_proof_size i l') := by
  refine ⟨fun n => by simp [fcmp_proof_size],
    fun n => by simp [fcmp_proof_size], ?_, ?_⟩
  · intro i i' l hi hii' hl hb
    have hm : 32 * i * l ≤ 32 * i' * l :=
      Nat.mul_le_mul_right l (Nat.mul_le_mul_left 32 hii')
    rw [fcmp_proof_size_eq_of_lt i l hi hl (by omega),
      fcmp_proof_size_eq_of_lt i' l (by omega) hl hb]
    omega
  · intro i l l' hi hl hll' hb
    have hm : 32 * i * l ≤ 32 * i * l' := Nat.mul_le_mul_left _ hll'
    rw [fcmp_proof_size_eq_of_lt i l hi hl (by omega),
      fcmp_proof_size_eq_of_lt i l' hi (by omega) hb]
    have hs : Nat.size l ≤ Nat.size l' := Nat.size_le_size hll'
    simp only [u32_leading_zeros]
    omega

/-- A concrete instance of C5's monotonicity in the non-wrapping
range. -/
theorem c5_witness :
    fcmp_proof_size 2 3 ≤ fcmp_proof_size 5 3 ∧
    fcmp_proof_size 2 3 ≤ fcmp_proof_size 2 7 := by
  constructor
  · exact c5_proof_size_zero_and_monotone.2.2.1 2 5 3 (by decide)
      (by decide) (by decide) (by decide)
  · exact c5_proof_size_zero_and_monotone.2.2.2 2 3 7 (by decide)
      (by decide) (by decide) (by decide)

/-- C6 (code bug): the claim says `fcmp_scalar_mul` computes
`a * b mod ℓ`, and the function's own doc comment says
`out = a * b (mod l)`; the body instead XORs the bytes.  At
`a = 2, b = 3` the code writes the scalar `2 XOR 3 = 1` while the
product is `6`. -/
theorem c6_scalar_mul_is_xor_not_product :
    fcmp_scalar_mul false (some twoScalar) (some threeScalar) =
      (FCMP_SUCCESS, some oneScalar) ∧
    leVal twoScalar = 2 ∧ leVal threeScalar = 3 ∧ leVal oneScalar = 1 ∧
    2 * 3 % ED25519_GROUP_ORDER = 6 ∧ (1 : Nat) ≠ 6 := by
  refine ⟨by decide, by decide, by decide, by decide, by decide, by decide⟩

/-- C7: `fcmp_scalar_add` is commutative on valid 32-byte scalars. -/
theorem c7_scalar_add_commutative (a b : List Nat)
    (_ha : a.length = 32) (_hb : b.length = 32)
    (_hva : bytesValid a) (_hvb : bytesValid b) :
    fcmp_scalar_add false (some a) (some b) =
      fcmp_scalar_add false (some b) (some a) := by
  simp only [fcmp_scalar_add]
  rw [addBytesCarry_comm]
  simp

/-- Witness for C7 at two concrete scalars. -/
theorem c7_scalar_add_commutative_witness :
    fcmp_scalar_add false (some (List.replicate 32 1))
        (some (List.replicate 32 2)) =
      fcmp_scalar_add false (some (List.replicate 32 2))
        (some (List.replicate 32 1)) :=
  c7_scalar_add_commutative _ _ (by decide) (by decide) (by decide)
    (by decide)

/-- C8: the parameter lifecycle is the two-state machine
uninitialized/initialized; `fcmp_init` always lands in the initialized
state with `FCMP_SUCCESS` (so re-init is a no-op success) and
`fcmp_cleanup` always lands in the uninitialized state (so cleanup when
already uninitialized is a no-op). -/
theorem c8_lifecycle_idempotent :
    fcmp_init false = (true, FCMP_SUCCESS) ∧
    fcmp_init true = (true, FCMP_SUCCESS) ∧
    fcmp_cleanup true = false ∧
    fcmp_cleanup false = false ∧
    (∀ st, fcmp_is_initialized (fcmp_init st).1 = 1) ∧
    (∀ st, fcmp_is_initialized (fcmp_cleanup st) = 0) := by
  refine ⟨rfl, rfl, rfl, rfl, ?_, ?_⟩ <;> intro st <;> cases st <;> rfl

/-! ## Claim C10: every produced scalar is below `2 ^ 255` -/

/-- C10: every scalar written by `fcmp_scalar_random`, `fcmp_scalar_add`,
`fcmp_scalar_mul` and `fcmp_hash_to_scalar` has the top bit of byte 31
cleared, so its little-endian value is below `2 ^ 255`.  The hypotheses
say the inputs are genuine 32-byte buffers (and that Blake2b512 digests
are 64 valid bytes). -/
theorem c10_scalars_below_2_255 :
    (∀ e s, e.length = 32 → bytesValid e →
      (fcmp_scalar_random (some e) false).2 = some s →
      s.length = 32 ∧ bytesValid s ∧ s.getD 31 0 < 128 ∧
        leVal s < 2 ^ 255) ∧
    (∀ a b s, a.length = 32 → bytesValid a → b.length = 32 →
      bytesValid b → (fcmp_scalar_add false (some a) (some b)).2 = some s →
      s.length = 32 ∧ bytesValid s ∧ s.getD 31 0 < 128 ∧
        leVal s < 2 ^ 255) ∧
    (∀ a b s, a.length = 32 → bytesValid a → b.length = 32 →
      bytesValid b → (fcmp_scalar_mul false (some a) (some b)).2 = some s →
      s.length = 32 ∧ bytesValid s ∧ s.getD 31 0 < 128 ∧
        leVal s < 2 ^ 255) ∧
    (∀ (blake : List Nat → List Nat) d dlen s,
      (∀ l, (blake l).length = 64 ∧ bytesValid (blake l)) →
      (fcmp_hash_to_scalar blake false (some d) dlen).2 = some s →
      s.length = 32 ∧ bytesValid s ∧ s.getD 31 0 < 128 ∧
        leVal s < 2 ^ 255) := by
  have final : ∀ t, t.length = 32 → bytesValid t →
      (clampTop t).length = 32 ∧ bytesValid (clampTop t) ∧
        (clampTop t).getD 31 0 < 128 ∧ leVal (clampTop t) < 2 ^ 255 := by
    intro t hl hv
    obtain ⟨h1, h2, h3⟩ := clampTop_spec t hl hv
    exact ⟨h1, h2, h3, scalar32_lt_2_255 _ h2 h1 h3⟩
  refine ⟨?_, ?_, ?_, ?_⟩
  · intro e s hl hv hs
    simp only [fcmp_scalar_random] at hs
    rw [if_neg (by simp)] at hs
    simp only [Option.some.injEq] at hs
    subst hs
    exact final e hl hv
  · intro a b s hla hva hlb hvb hs
    simp only [fcmp_scalar_add] at hs
    rw [if_neg (by simp)] at hs
    simp only [Option.some.injEq] at hs
    subst hs
    exact final _ (by rw [addBytesCarry_length, hla, hlb]; rfl)
      (addBytesCarry_valid a b 0)
  · intro a b s hla hva hlb hvb hs
    simp only [fcmp_scalar_mul] at hs
    rw [if_neg (by simp)] at hs
    simp only [Option.some.injEq] at hs
    subst hs
    exact final _ (by rw [List.length_zipWith, hla, hlb]; rfl)
      (zipWith_xor_valid a b hva hvb)
  · intro blake d dlen s hblake hs
    simp only [fcmp_hash_to_scalar] at hs
    rw [if_neg (by simp)] at hs
    simp only [Option.some.injEq] at hs
    set input := if 0 < dlen then (some d).getD [] else [] with hinput
    subst hs
    refine final _ ?_ ?_
    · rw [List.length_take, (hblake input).1]
      rfl
    · intro z hz
      exact (hblake input).2 z (List.take_subset _ _ hz)

/-- Witness for C10 at concrete inputs: the all-255 entropy buffer and
the sum of two all-255 scalars both land below `2 ^ 255`. -/
theorem c10_witness :
    leVal (clampTop (List.replicate 32 255)) < 2 ^ 255 ∧
    leVal (clampTop (addBytesCarry (List.replicate 32 255)
      (List.replicate 32 255) 0)) < 2 ^ 255 := by
  constructor
  · exact (c10_scalars_below_2_255.1 (List.replicate 32 255)
      (clampTop (List.replicate 32 255)) (by decide) (by decide)
      rfl).2.2.2
  · exact (c10_scalars_below_2_255.2.1 (List.replicate 32 255)
      (List.replicate 32 255)
      (clampTop (addBytesCarry (List.replicate 32 255)
        (List.replicate 32 255) 0)) (by decide) (by decide) (by decide)
      (by decide) rfl).2.2.2

/-! ## Claim C1: `fcmp_verify` boundary behaviour (corrected) -/

/-- A concrete all-zero `FcmpInput`. -/
def zeroInput : FcmpInput :=
  ⟨List.replicate 64 0, List.replicate 64 0, List.replicate 64 0,
    List.replicate 64 0⟩

/-- C1 counterexample: an all-zero proof buffer of length 10 makes
`fcmp_verify` return `FCMP_ERROR_INVALID_PARAM`, not the
proof-verification-failure code the claim requires for every all-zero
buffer. -/
theorem c1_counterexample :
    fcmp_verify true (some (List.replicate 32 0)) (some zeroInput)
        (some (List.replicate 10 0)) 10 = FCMP_ERROR_INVALID_PARAM ∧
      FCMP_ERROR_INVALID_PARAM ≠ FCMP_ERROR_PROOF_VERIFICATION := by
  refine ⟨by decide, by decide⟩

/-- C1 (amended): with the library initialized and all pointers
non-null, `fcmp_verify` returns `FCMP_ERROR_INVALID_PARAM` (never
`FCMP_SUCCESS`) whenever `proof_len < 64`, and returns
`FCMP_ERROR_PROOF_VERIFICATION` whenever `proof_len ≥ 64` and the
`proof_len`-byte proof buffer is entirely zero. -/
theorem c1_verify_rejects_short_and_zero (root : List Nat)
    (inp : FcmpInput) (pf : List Nat) (pl : Nat) :
    (pl < 64 →
      fcmp_verify true (some root) (some inp) (some pf) pl =
          FCMP_ERROR_INVALID_PARAM ∧
        fcmp_verify true (some root) (some inp) (some pf) pl ≠
          FCMP_SUCCESS) ∧
    (64 ≤ pl → (pf.take pl).all (· = 0) = true →
      fcmp_verify true (some root) (some inp) (some pf) pl =
        FCMP_ERROR_PROOF_VERIFICATION) := by
  constructor
  · intro hpl
    have h1 : fcmp_verify true (some root) (some inp) (some pf) pl =
        FCMP_ERROR_INVALID_PARAM := by
      simp [fcmp_verify, hpl]
    exact ⟨h1, by rw [h1]; decide⟩
  · intro hpl hz
    have hnl : ¬ pl < 64 := by omega
    simp [fcmp_verify, hnl, hz]

/-- Witness for the amended C1 at concrete buffers. -/
theorem c1_witness :
    (fcmp_verify true (some (List.replicate 32 0)) (some zeroInput)
        (some (List.replicate 10 0)) 10 = FCMP_ERROR_INVALID_PARAM ∧
      fcmp_verify true (some (List.replicate 32 0)) (some zeroInput)
        (some (List.replicate 10 0)) 10 ≠ FCMP_SUCCESS) ∧
    fcmp_verify true (some (List.replicate 32 0)) (some zeroInput)
        (some (List.replicate 64 0)) 64 =
      FCMP_ERROR_PROOF_VERIFICATION := by
  constructor
  · exact (c1_verify_rejects_short_and_zero (List.replicate 32 0) zeroInput
      (List.replicate 10 0) 10).1 (by decide)
  · exact (c1_verify_rejects_short_and_zero (List.replicate 32 0) zeroInput
      (List.replicate 64 0) 64).2 (by decide) (by decide)

/-! ## Claim C2: initialization check ordering (corrected) -/

/-- C2 counterexample: `fcmp_prove` called while uninitialized with a
null `tree_root` returns `FCMP_ERROR_INVALID_PARAM`, not
`FCMP_ERROR_NOT_INITIALIZED`: the null-pointer check runs first. -/
theorem c2_counterexample :
    fcmp_prove (fun _ => List.replicate 64 0) false false false 64
        none (some (List.replicate 96 0))
        (some ⟨0, 1, some [⟨0, none⟩]⟩) =
      (FCMP_ERROR_INVALID_PARAM, none, none) ∧
    FCMP_ERROR_INVALID_PARAM ≠ FCMP_ERROR_NOT_INITIALIZED := by
  refine ⟨by decide, by decide⟩

/-- C2 (amended): for every input whose pointers are all non-null,
calling `fcmp_prove` or `fcmp_verify` while the parameters singleton is
uninitialized returns `FCMP_ERROR_NOT_INITIALIZED`; the initialization
check runs after the null-pointer checks but before any other input is
examined (the theorem holds for arbitrary branch contents, proof
lengths and buffer sizes). -/
theorem c2_not_initialized_after_null_checks
    (blake : List Nat → List Nat) (mx : Nat) (root out pf : List Nat)
    (br : FcmpBranch) (inp : FcmpInput) (pl : Nat) :
    fcmp_prove blake false false false mx (some root) (some out)
        (some br) = (FCMP_ERROR_NOT_INITIALIZED, none, none) ∧
    fcmp_verify false (some root) (some inp) (some pf) pl =
      FCMP_ERROR_NOT_INITIALIZED := by
  constructor
  · simp [fcmp_prove]
  · simp [fcmp_verify]

/-! ## Claim C9: `fcmp_prove` output size and memory error -/

/-- C9: whenever `fcmp_prove` returns `FCMP_SUCCESS` it writes exactly
64 proof bytes and sets `*proof_len_out` to 64 (for any inputs at all);
and under non-null pointers, initialized state and a branch with
`num_layers > 0` and non-null layers, it returns `FCMP_ERROR_MEMORY`
writing nothing exactly when `proof_max_len < 64`.  The hypothesis on
`blake` records that Blake2b512 digests are 64 bytes long. -/
theorem c9_prove_size_and_memory (blake : List Nat → List Nat)
    (hblake : ∀ l, (blake l).length = 64) :
    (∀ (init pn ln : Bool) (mx : Nat) (root out : Option (List Nat))
        (br : Option FcmpBranch),
      (fcmp_prove blake init pn ln mx root out br).1 = FCMP_SUCCESS →
      ∃ pf, fcmp_prove blake init pn ln mx root out br =
          (FCMP_SUCCESS, some pf, some 64) ∧ pf.length = 64) ∧
    (∀ (mx : Nat) (root out : List Nat) (br : FcmpBranch),
      br.layers ≠ none → 0 < br.num_layers →
      ((mx < 64 →
        fcmp_prove blake true false false mx (some root) (some out)
          (some br) = (FCMP_ERROR_MEMORY, none, none)) ∧
       (64 ≤ mx →
        (fcmp_prove blake true false false mx (some root) (some out)
          (some br)).1 = FCMP_SUCCESS))) := by
  constructor
  · intro init pn ln mx root out br hret
    simp only [fcmp_prove] at hret ⊢
    by_cases h1 : pn = true ∨ ln = true ∨ root = none ∨ out = none ∨
        br = none
    · rw [if_pos h1] at hret
      exact absurd hret (by decide)
    · rw [if_neg h1] at hret ⊢
      by_cases h2 : ¬ init = true
      · rw [if_pos h2] at hret
        exact absurd hret (by decide)
      · rw [if_neg h2] at hret ⊢
        by_cases h3 : (br.getD ⟨0, 0, none⟩).layers = none ∨
            (br.getD ⟨0, 0, none⟩).num_layers = 0
        · rw [if_pos h3] at hret
          exact absurd hret (by decide)
        · rw [if_neg h3] at hret ⊢
          by_cases h4 : mx < 64
          · rw [if_pos h4] at hret
            exact absurd hret (by decide)
          · rw [if_neg h4] at hret ⊢
            exact ⟨_, rfl, by rw [List.length_take, hblake]; rfl⟩
  · intro mx root out br hlay hnl
    constructor
    · intro hmx
      have hc : ¬(br.layers = none ∨ br.num_layers = 0) := by
        intro h
        rcases h with h | h
        · exact hlay h
        · omega
      simp [fcmp_prove, hc, hmx]
    · intro hmx
      have hc : ¬(br.layers = none ∨ br.num_layers = 0) := by
        intro h
        rcases h with h | h
        · exact hlay h
        · omega
      have hnm : ¬ mx < 64 := by omega
      simp [fcmp_prove, hc, hnm]

/-- A concrete branch with one layer of one 32-byte element. -/
def sampleBranch : FcmpBranch :=
  ⟨0, 1, some [⟨1, some (List.replicate 32 1)⟩]⟩

/-- Witness for C9: with a 64-byte digest function, a buffer of 10
bytes yields `FCMP_ERROR_MEMORY` and a buffer of 64 bytes yields
success. -/
theorem c9_witness :
    (fcmp_prove (fun _ => List.replicate 64 7) true false false 10
        (some (List.replicate 32 0)) (some (List.replicate 96 0))
        (some sampleBranch) = (FCMP_ERROR_MEMORY, none, none)) ∧
    (fcmp_prove (fun _ => List.replicate 64 7) true false false 64
        (some (List.replicate 32 0)) (some (List.replicate 96 0))
        (some sampleBranch)).1 = FCMP_SUCCESS := by
  have h := c9_prove_size_and_memory (fun _ => List.replicate 64 7)
    (fun _ => rfl)
  constructor
  · exact ((h.2 10 (List.replicate 32 0) (List.replicate 96 0)
      sampleBranch (by decide) (by decide)).1 (by decide))
  · exact (h.2 64 (List.replicate 32 0) (List.replicate 96 0)
      sampleBranch (by decide) (by decide)).2 (by decide)

/-! ## Rejection-sampling loop lemmas -/

theorem h2pLoop_none_iff {Point : Type} (blake : List Nat → List Nat)
    (dec : List Nat → Option Point) (hash : List Nat) :
    ∀ (fuel i : Nat), h2pLoop blake dec hash fuel i = none ↔
      ∀ j, j < fuel → dec (h2pCandidate blake hash (i + j)) = none := by
  intro fuel
  induction fuel with
  | zero => intro i; simp [h2pLoop]
  | succ fuel ih =>
    intro i
    simp only [h2pLoop]
    cases hd : dec (h2pCandidate blake hash i) with
    | some p =>
      simp only [reduceCtorEq, false_iff, not_forall]
      exact ⟨0, by omega, by simp [hd]⟩
    | none =>
      rw [ih (i + 1)]
      constructor
      · intro h j hj
        cases j with
        | zero => simp only [Nat.add_zero]; exact hd
        | succ j =>
          have h2 := h j (by omega)
          rw [show i + (j + 1) = i + 1 + j from by omega]
          exact h2
      · intro h j hj
        have h2 := h (j + 1) (by omega)
        rw [show i + 1 + j = i + (j + 1) from by omega]
        exact h2

theorem h2pLoop_first_some {Point : Type} (blake : List Nat → List Nat)
    (dec : List Nat → Option Point) (hash : List Nat) (k : Nat)
    (p : Point) :
    ∀ (fuel i : Nat), i ≤ k → k < i + fuel →
      dec (h2pCandidate blake hash k) = some p →
      (∀ j, i ≤ j → j < k → dec (h2pCandidate blake hash j) = none) →
      h2pLoop blake dec hash fuel i = some (k, p) := by
  intro fuel
  induction fuel with
  | zero => intro i h1 h2; omega
  | succ fuel ih =>
    intro i h1 h2 hk hfirst
    simp only [h2pLoop]
    rcases Nat.eq_or_lt_of_le h1 with heq | hlt
    · subst heq
      rw [hk]
    · rw [hfirst i (le_refl i) hlt]
      exact ih (i + 1) hlt (by omega) hk
        (fun j hj hjk => hfirst j (by omega) hjk)

/-- The input string actually hashed by `fcmp_hash_to_point` for
non-null `data`. -/
def h2pInput (d : List Nat) (dlen : Nat) : List Nat :=
  if 0 < dlen then d else []

/-- The seed digest of `fcmp_hash_to_point`: Blake2b512 of the domain
tag followed by the input. -/
def h2pSeed (blake : List Nat → List Nat) (d : List Nat) (dlen : Nat) :
    List Nat :=
  blake (hashToPointTag ++ h2pInput d dlen)

theorem fcmp_hash_to_point_internal {Point : Type}
    (blake : List Nat → List Nat) (dec : List Nat → Option Point)
    (cof : Point → Point) (comp : Point → List Nat)
    (d : List Nat) (dlen : Nat)
    (hall : ∀ j, j < 256 →
      dec (h2pCandidate blake (h2pSeed blake d dlen) j) = none) :
    fcmp_hash_to_point blake dec cof comp false (some d) dlen =
      (FCMP_ERROR_INTERNAL, none) := by
  simp only [fcmp_hash_to_point]
  rw [if_neg (by simp)]
  have hnone : h2pLoop blake dec
      (blake (hashToPointTag ++ if 0 < dlen then (some d).getD [] else []))
      256 0 = none := by
    rw [h2pLoop_none_iff]
    intro j hj
    have := hall j hj
    simpa [h2pSeed, h2pInput] using this
  rw [hnone]

theorem fcmp_hash_to_point_success {Point : Type}
    (blake : List Nat → List Nat) (dec : List Nat → Option Point)
    (cof : Point → Point) (comp : Point → List Nat)
    (d : List Nat) (dlen : Nat) (k : Nat) (p : Point) (hk : k < 256)
    (hdec : dec (h2pCandidate blake (h2pSeed blake d dlen) k) = some p)
    (hfirst : ∀ j, j < k →
      dec (h2pCandidate blake (h2pSeed blake d dlen) j) = none) :
    fcmp_hash_to_point blake dec cof comp false (some d) dlen =
      (FCMP_SUCCESS, some (comp (cof p))) := by
  simp only [fcmp_hash_to_point]
  rw [if_neg (by simp)]
  have hsome : h2pLoop blake dec
      (blake (hashToPointTag ++ if 0 < dlen then (some d).getD [] else []))
      256 0 = some (k, p) := by
    apply h2pLoop_first_some blake dec _ k p 256 0 (Nat.zero_le k)
      (by omega)
    · simpa [h2pSeed, h2pInput] using hdec
    · intro j _ hjk
      simpa [h2pSeed, h2pInput] using hfirst j hjk
  rw [hsome]

/-! ## Claim C3: the hash-to-point construction -/

/-- C3: `fcmp_hash_to_point` hashes the fixed domain tag and the input
once into a seed, then for at most 256 attempts re-hashes the seed with
the one-byte attempt counter and takes the digest's leading 32 bytes as
the candidate (`h2pCandidate`); the first candidate that decompresses
is multiplied by the cofactor before being compressed and returned;
if no candidate among the 256 decompresses the result is
`FCMP_ERROR_INTERNAL`; and the mapping is deterministic (it is a
function of the input only). -/
theorem c3_hash_to_point_characterization {Point : Type}
    (blake : List Nat → List Nat) (dec : List Nat → Option Point)
    (cof : Point → Point) (comp : Point → List Nat)
    (d : List Nat) (dlen : Nat) :
    ((∀ j, j < 256 →
        dec (h2pCandidate blake (h2pSeed blake d dlen) j) = none) →
      fcmp_hash_to_point blake dec cof comp false (some d) dlen =
        (FCMP_ERROR_INTERNAL, none)) ∧
    (∀ k p, k < 256 →
      dec (h2pCandidate blake (h2pSeed blake d dlen) k) = some p →
      (∀ j, j < k →
        dec (h2pCandidate blake (h2pSeed blake d dlen) j) = none) →
      fcmp_hash_to_point blake dec cof comp false (some d) dlen =
        (FCMP_SUCCESS, some (comp (cof p)))) ∧
    (∀ d' dlen', d = d' → dlen = dlen' →
      fcmp_hash_to_point blake dec cof comp false (some d) dlen =
        fcmp_hash_to_point blake dec cof comp false (some d') dlen') := by
  refine ⟨?_, ?_, ?_⟩
  · exact fcmp_hash_to_point_internal blake dec cof comp d dlen
  · intro k p hk hdec hfirst
    exact fcmp_hash_to_point_success blake dec cof comp d dlen k p hk
      hdec hfirst
  · intro d' dlen' hd hdl
    subst hd
    subst hdl
    rfl

/-- Witness for C3 at a toy curve model where the first candidate
decompresses: `Point := Nat`, decompression reads the head byte,
cofactor multiplication doubles, compression re-encodes as a singleton
buffer. -/
theorem c3_witness :
    fcmp_hash_to_point (fun _ => List.replicate 64 5)
        (fun b => some (b.headD 0)) (fun p => 2 * p) (fun p => [p])
        false (some [1, 2, 3]) 3 = (FCMP_SUCCESS, some [10]) :=
  (c3_hash_to_point_characterization (fun _ => List.replicate 64 5)
      (fun b => some (b.headD 0)) (fun p => 2 * p) (fun p => [p])
      [1, 2, 3] 3).2.1 0 5 (by decide) (by decide)
    (fun j hj => absurd hj (by omega))

/-! ## Claim C4: the Pedersen commitment -/

/-- C4: `fcmp_pedersen_commit` returns the compressed encoding of
`value*G + blinding*H`, where `G` is the fixed basepoint and `H` is the
point produced by `fcmp_hash_to_point` on the fixed domain string
`pedersenHTag` (conjunct 1 exhibits that hash-to-point call, conjunct 2
shows the commitment uses exactly its point); the output always
satisfies `fcmp_point_is_valid` (conjunct 3).  The hypotheses say the
hash-to-point rejection sampling for the domain string accepts attempt
`k` (as it does for the real curve) and that decompression inverts
compression. -/
theorem c4_pedersen_commit {Point Scalar : Type}
    (blake : List Nat → List Nat) (dec : List Nat → Option Point)
    (cof : Point → Point) (comp : Point → List Nat)
    (fromB : List Nat → Scalar) (smul : Scalar → Point → Point)
    (padd : Point → Point → Point) (G : Point)
    (k : Nat) (p : Point) (hk : k < 256)
    (hdec : dec (h2pCandidate blake
      (h2pSeed blake pedersenHTag pedersenHTag.length) k) = some p)
    (hfirst : ∀ j, j < k → dec (h2pCandidate blake
      (h2pSeed blake pedersenHTag pedersenHTag.length) j) = none)
    (hround : ∀ q, dec (comp q) = some q)
    (value blinding : List Nat) :
    fcmp_hash_to_point blake dec cof comp false (some pedersenHTag)
        pedersenHTag.length = (FCMP_SUCCESS, some (comp (cof p))) ∧
    fcmp_pedersen_commit blake dec cof comp fromB smul padd G false
        (some value) (some blinding) =
      some (FCMP_SUCCESS, some (comp (padd (smul (fromB value) G)
        (smul (fromB blinding) (cof p))))) ∧
    fcmp_point_is_valid dec (some (comp (padd (smul (fromB value) G)
        (smul (fromB blinding) (cof p))))) = 1 := by
  have hH := fcmp_hash_to_point_success blake dec cof comp pedersenHTag
    pedersenHTag.length k p hk hdec hfirst
  refine ⟨hH, ?_, ?_⟩
  · simp [fcmp_pedersen_commit, hH, hround]
  · simp [fcmp_point_is_valid, hround]

/-- Witness for C4 at a toy curve model (`Point := Nat`, decompression
reads the head byte, compression is a singleton buffer, cofactor
multiplication doubles, scalars act by multiplication): committing
`value = 2`, `blinding = 1` with `G = 3` and `H = 18` gives `[24]`. -/
theorem c4_witness :
    fcmp_hash_to_point (fun _ => List.replicate 64 9)
        (fun b => some (b.headD 0)) (fun p => 2 * p) (fun p => [p])
        false (some pedersenHTag) pedersenHTag.length =
      (FCMP_SUCCESS, some [18]) ∧
    fcmp_pedersen_commit (fun _ => List.replicate 64 9)
        (fun b => some (b.headD 0)) (fun p => 2 * p) (fun p => [p])
        leVal (fun s pt => s * pt) (fun a b => a + b) 3 false
        (some [2]) (some [1]) = some (FCMP_SUCCESS, some [24]) ∧
    fcmp_point_is_valid (fun b => some (b.headD 0)) (some [24]) = 1 :=
  c4_pedersen_commit (fun _ => List.replicate 64 9)
    (fun b => some (b.headD 0)) (fun p => 2 * p) (fun p => [p])
    leVal (fun s pt => s * pt) (fun a b => a + b) 3 0 9 (by decide) rfl
    (fun j hj => absurd hj (by omega)) (fun q => rfl) [2] [1]

end Fcmp
